import Mathlib

/-!
Verification of the realtime notice-board synchronization core
(`server.ts`, `src/types.ts`, `src/App.tsx`).

The embedding models:
* the SQLite-backed durable store (`notices` table, AUTOINCREMENT ids,
  `createdAt DATETIME DEFAULT CURRENT_TIMESTAMP`),
* the WebSocket hub message handler (`ws.on("message")` in `server.ts`),
* the connection handler (`wss.on("connection")`, which sends
  `INITIAL_STATE` from `SELECT * FROM notices ORDER BY createdAt DESC`),
* the client projector fold (`socket.onmessage` in `App.tsx`).

Machine time is modelled by an explicit `DateTime` value handed to each
message-processing step; the two timestamp renderings used by the code
(SQLite's `CURRENT_TIMESTAMP` text and JavaScript's
`Date.prototype.toISOString`) are embedded from their documented formats.
-/

/-- A broken-down UTC instant, the argument of both timestamp formats. -/
structure DateTime where
  year : Nat
  month : Nat
  day : Nat
  hour : Nat
  minute : Nat
  second : Nat
  millisecond : Nat
  deriving DecidableEq

/-- Zero-pad a numeral to width 2 (as both timestamp formats do). -/
def pad2 (n : Nat) : String :=
  if n < 10 then "0" ++ toString n else toString n

/-- Zero-pad a numeral to width 3 (milliseconds in `toISOString`). -/
def pad3 (n : Nat) : String :=
  if n < 10 then "00" ++ toString n
  else if n < 100 then "0" ++ toString n
  else toString n

/-- Zero-pad a numeral to width 4 (years). -/
def pad4 (n : Nat) : String :=
  if n < 10 then "000" ++ toString n
  else if n < 100 then "00" ++ toString n
  else if n < 1000 then "0" ++ toString n
  else toString n

/-- SQLite's `CURRENT_TIMESTAMP` default value: the documented
`YYYY-MM-DD HH:MM:SS` UTC text stored into `createdAt` by the
`DEFAULT CURRENT_TIMESTAMP` clause of the `notices` table. -/
def sqliteCurrentTimestamp (t : DateTime) : String :=
  pad4 t.year ++ "-" ++ pad2 t.month ++ "-" ++ pad2 t.day ++ " " ++
    pad2 t.hour ++ ":" ++ pad2 t.minute ++ ":" ++ pad2 t.second

/-- JavaScript's `new Date().toISOString()`: the documented
`YYYY-MM-DDTHH:MM:SS.sssZ` rendering used for the broadcast notice's
`createdAt` in the `ADD_NOTICE` branch of `server.ts`. -/
def dateToISOString (t : DateTime) : String :=
  pad4 t.year ++ "-" ++ pad2 t.month ++ "-" ++ pad2 t.day ++ "T" ++
    pad2 t.hour ++ ":" ++ pad2 t.minute ++ ":" ++ pad2 t.second ++ "." ++
    pad3 t.millisecond ++ "Z"

/-- The `Notice` entity of `src/types.ts`.  The `category` and `priority`
fields are `String`s on the wire (TypeScript string-literal unions erase at
runtime); `expiresAt` is optional. -/
structure Notice where
  id : Nat
  title : String
  content : String
  category : String
  priority : String
  author : String
  createdAt : String
  expiresAt : Option String
  deriving DecidableEq

/-- `NoticeInput` of `src/types.ts`: a `Notice` without `id`/`createdAt`. -/
structure NoticeInput where
  title : String
  content : String
  category : String
  priority : String
  author : String
  expiresAt : Option String
  deriving DecidableEq

/-- The enumerated `category` set of `src/types.ts`. -/
def validCategory (s : String) : Bool :=
  s == "Academic" || s == "Event" || s == "Exam" || s == "General" || s == "Emergency"

/-- The enumerated `priority` set of `src/types.ts`. -/
def validPriority (s : String) : Bool :=
  s == "Low" || s == "Medium" || s == "High"

/-- `ClientEvent` of `src/types.ts`. -/
inductive ClientEvent where
  | addNotice (notice : NoticeInput)
  | deleteNotice (id : Nat)
  deriving DecidableEq

/-- An inbound WebSocket payload, as the `ws.on("message")` handler sees it:
either it parses to a known command, or it parses but its `type` tag is
neither `ADD_NOTICE` nor `DELETE_NOTICE` (the if/else chain falls through),
or `JSON.parse`/field access throws (caught by the surrounding try/catch). -/
inductive Inbound where
  | event (e : ClientEvent)
  | unknownType (ty : String)
  | malformed
  deriving DecidableEq

/-- `ServerEvent` of `src/types.ts`: the facts the hub broadcasts. -/
inductive ServerFact where
  | initialState (notices : List Notice)
  | noticeAdded (notice : Notice)
  | noticeDeleted (id : Nat)
  deriving DecidableEq

/-- The `notices` table: rows in rowid (insertion) order, plus the
`AUTOINCREMENT` sequence value (largest id ever assigned).  AUTOINCREMENT
guarantees new rowids exceed every id ever used, even deleted ones. -/
structure Store where
  rows : List Notice
  seq : Nat
  deriving DecidableEq

/-- A fresh database (the `CREATE TABLE IF NOT EXISTS` starting state). -/
def emptyStore : Store := { rows := [], seq := 0 }

/-- JavaScript's `expiresAt || null` bound into the INSERT: the empty
string is falsy, so it is stored as NULL. -/
def jsOrNull : Option String → Option String
  | none => none
  | some s => if s = "" then none else some s

/-- The row the INSERT statement durably writes for an `ADD_NOTICE`:
id from AUTOINCREMENT, `createdAt` filled by the column default
`CURRENT_TIMESTAMP`, `expiresAt` bound as `expiresAt || null`. -/
def mkStoredRow (st : Store) (t : DateTime) (inp : NoticeInput) : Notice :=
  { id := st.seq + 1
    title := inp.title
    content := inp.content
    category := inp.category
    priority := inp.priority
    author := inp.author
    createdAt := sqliteCurrentTimestamp t
    expiresAt := jsOrNull inp.expiresAt }

/-- The `newNotice` object the handler constructs and broadcasts:
`id` from `info.lastInsertRowid`, the submitted fields verbatim
(including `expiresAt` without the `|| null` coercion), and
`createdAt: new Date().toISOString()`. -/
def mkBroadcastRow (st : Store) (t : DateTime) (inp : NoticeInput) : Notice :=
  { id := st.seq + 1
    title := inp.title
    content := inp.content
    category := inp.category
    priority := inp.priority
    author := inp.author
    createdAt := dateToISOString t
    expiresAt := inp.expiresAt }

/-- One known command processed by the `ws.on("message")` handler:
`ADD_NOTICE` inserts (appending the row, bumping the sequence) and
broadcasts `NOTICE_ADDED`; `DELETE_NOTICE` runs
`DELETE FROM notices WHERE id = ?` and broadcasts `NOTICE_DELETED`
unconditionally.  Returns the new store and the facts broadcast. -/
def stepEvent (st : Store) (t : DateTime) (e : ClientEvent) : Store × List ServerFact :=
  match e with
  | .addNotice inp =>
    ({ rows := st.rows ++ [mkStoredRow st t inp], seq := st.seq + 1 },
      [.noticeAdded (mkBroadcastRow st t inp)])
  | .deleteNotice i =>
    ({ st with rows := st.rows.filter (fun n => n.id != i) },
      [.noticeDeleted i])

/-- Lexicographic comparison of character lists: SQLite's BINARY collation
on the stored TEXT timestamps (byte order coincides with codepoint order on
the ASCII timestamp alphabet). -/
def charListLe : List Char → List Char → Bool
  | [], _ => true
  | _ :: _, [] => false
  | a :: as, b :: bs =>
    if a < b then true
    else if b < a then false
    else charListLe as bs

/-- `a ≤ b` in SQLite's TEXT ordering. -/
def strLe (a b : String) : Bool := charListLe a.data b.data

/-- Ordering used by `SELECT * FROM notices ORDER BY createdAt DESC`:
`a` may precede `b` when `a.createdAt ≥ b.createdAt` in TEXT order. -/
def createdAtDesc (a b : Notice) : Prop :=
  strLe b.createdAt a.createdAt = true

instance : DecidableRel createdAtDesc :=
  fun a b => inferInstanceAs (Decidable (strLe b.createdAt a.createdAt = true))

/-- `listAll`: the `SELECT * FROM notices ORDER BY createdAt DESC` query.
The SQL constrains only `createdAt`; rows with equal `createdAt` are
modelled as staying in table-scan (rowid) order, which a stable sort of the
scan realises. -/
def listAll (st : Store) : List Notice :=
  List.insertionSort createdAtDesc st.rows

/-- The `wss.on("connection")` handler's send: a single `INITIAL_STATE`
fact carrying the `listAll` result (the `formattedNotices` map is the
identity on each row). -/
def connectFact (st : Store) : ServerFact :=
  .initialState (listAll st)

/-- Hub state: the store plus the set of live connections
(`wss.clients`), identified by opaque numbers. -/
structure HubState where
  store : Store
  clients : List Nat
  deriving DecidableEq

/-- The whole `ws.on("message")` handler, try/catch included: known
commands are applied via `stepEvent`; an unknown `type` tag falls through
the if/else chain; a payload that throws during parsing is caught by the
catch block (which only logs).  The handler never touches `wss.clients`. -/
def hubHandleMessage (hs : HubState) (t : DateTime) (m : Inbound) : HubState × List ServerFact :=
  match m with
  | .event e =>
    let r := stepEvent hs.store t e
    ({ hs with store := r.1 }, r.2)
  | .unknownType _ => (hs, [])
  | .malformed => (hs, [])

/-- Processing a sequence of timestamped known commands against the store
(the single-threaded hub applies them in arrival order). -/
def runStore (st : Store) : List (DateTime × ClientEvent) → Store
  | [] => st
  | (t, e) :: rest => runStore (stepEvent st t e).1 rest

/-- The observable actions of the `ADD_NOTICE` branch, in program order:
the durable INSERT, then the broadcast send. -/
inductive HubAction where
  | write (row : Notice)
  | send (f : ServerFact)
  deriving DecidableEq

/-- The `ADD_NOTICE` branch as an ordered action trace: the synchronous
`db.prepare(...).run(...)` completes, then `broadcast` is called. -/
def addNoticeActions (st : Store) (t : DateTime) (inp : NoticeInput) : List HubAction :=
  [ .write (mkStoredRow st t inp),
    .send (.noticeAdded (mkBroadcastRow st t inp)) ]

/-- An inbound server message as the projector's `socket.onmessage` sees
it: one of the three known tags, or any other `type` string (the switch
has no default case). -/
inductive ProjectorMsg where
  | initialState (notices : List Notice)
  | noticeAdded (notice : Notice)
  | noticeDeleted (id : Nat)
  | other (ty : String)
  deriving DecidableEq

/-- The `socket.onmessage` fold of `App.tsx` over the local `notices`
sequence: replace on `INITIAL_STATE`, prepend on `NOTICE_ADDED`, filter on
`NOTICE_DELETED`, and fall through (no `setNotices` call) otherwise. -/
def onMessage (notices : List Notice) : ProjectorMsg → List Notice
  | .initialState ns => ns
  | .noticeAdded n => n :: notices
  | .noticeDeleted i => notices.filter (fun n => n.id != i)
  | .other _ => notices

/-- Whether a projector message bears one of the three known tags. -/
def knownProjectorMsg : ProjectorMsg → Bool
  | .other _ => false
  | _ => true

/-! ## Concrete sample data, used by witnesses and counterexamples -/

/-- A sample processing instant. -/
def sampleTime : DateTime := ⟨2024, 1, 15, 10, 30, 0, 0⟩

/-- The spec's end-to-end example notice submission. -/
def sampleInput : NoticeInput :=
  { title := "Exam Schedule"
    content := "Finals begin Monday"
    category := "Exam"
    priority := "High"
    author := "Registrar"
    expiresAt := none }

/-- A submission with an empty `title` (otherwise well-formed). -/
def emptyTitleInput : NoticeInput :=
  { title := ""
    content := "Finals begin Monday"
    category := "Exam"
    priority := "High"
    author := "Registrar"
    expiresAt := none }

/-- A second sample submission. -/
def secondInput : NoticeInput :=
  { title := "Library Hours"
    content := "Open till midnight"
    category := "General"
    priority := "Low"
    author := "Library"
    expiresAt := none }

/-- Two notices inserted within the same second: their stored `createdAt`
texts coincide (`CURRENT_TIMESTAMP` has one-second resolution). -/
def tieStore : Store :=
  runStore emptyStore
    [(sampleTime, ClientEvent.addNotice sampleInput),
      (sampleTime, ClientEvent.addNotice secondInput)]


/-! ## Order lemmas for the `ORDER BY createdAt DESC` comparison -/

theorem charListLe_cons (a b : Char) (as bs : List Char) :
    charListLe (a :: as) (b :: bs) = true ↔ a < b ∨ (a = b ∧ charListLe as bs = true) := by
  simp only [charListLe]
  rcases lt_trichotomy a b with h | h | h
  · simp [h]
  · subst h; simp [lt_irrefl]
  · simp [lt_asymm h, h, ne_of_gt h]

theorem charListLe_total : ∀ as bs : List Char, charListLe as bs = true ∨ charListLe bs as = true
  | [], _ => Or.inl rfl
  | _ :: _, [] => Or.inr rfl
  | a :: as, b :: bs => by
    rw [charListLe_cons, charListLe_cons]
    rcases lt_trichotomy a b with h | h | h
    · exact Or.inl (Or.inl h)
    · subst h
      rcases charListLe_total as bs with h2 | h2
      · exact Or.inl (Or.inr ⟨rfl, h2⟩)
      · exact Or.inr (Or.inr ⟨rfl, h2⟩)
    · exact Or.inr (Or.inl h)

theorem charListLe_trans : ∀ as bs cs : List Char,
    charListLe as bs = true → charListLe bs cs = true → charListLe as cs = true
  | [], _, _, _, _ => rfl
  | _ :: _, [], _, h1, _ => by simp [charListLe] at h1
  | _ :: _, _ :: _, [], _, h2 => by simp [charListLe] at h2
  | a :: as, b :: bs, c :: cs, h1, h2 => by
    rw [charListLe_cons] at h1 h2 ⊢
    rcases h1 with h1 | ⟨rfl, h1⟩
    · rcases h2 with h2 | ⟨rfl, h2⟩
      · exact Or.inl (lt_trans h1 h2)
      · exact Or.inl h1
    · rcases h2 with h2 | ⟨rfl, h2⟩
      · exact Or.inl h2
      · exact Or.inr ⟨rfl, charListLe_trans as bs cs h1 h2⟩

instance : IsTotal Notice createdAtDesc :=
  ⟨fun a b => charListLe_total b.createdAt.data a.createdAt.data⟩

instance : IsTrans Notice createdAtDesc :=
  ⟨fun _ _ _ h1 h2 => charListLe_trans _ _ _ h2 h1⟩

/-! ## Claim theorems -/

/-- C1 (counterexample): an `ADD_NOTICE` whose notice has an empty `title`
does NOT leave the store unchanged, and a broadcast fact IS emitted — the
`ws.on("message")` handler performs no field validation before the INSERT. -/
theorem addNotice_empty_title_mutates :
    emptyTitleInput.title = "" ∧
    (stepEvent emptyStore sampleTime (ClientEvent.addNotice emptyTitleInput)).1 ≠ emptyStore ∧
    (stepEvent emptyStore sampleTime (ClientEvent.addNotice emptyTitleInput)).2 ≠ [] := by
  refine ⟨rfl, ?_, ?_⟩ <;> decide

/-- C1 (amended): for every parseable `ADD_NOTICE` command — including one
whose `title` or `content` is empty or whose `category`/`priority` lies
outside the enumerated sets — the handler appends exactly one row to the
store and broadcasts exactly one `NOTICE_ADDED` fact; the server performs
no field validation. -/
theorem addNotice_unvalidated (st : Store) (t : DateTime) (inp : NoticeInput)
    (_h : inp.title = "" ∨ inp.content = "" ∨
      validCategory inp.category = false ∨ validPriority inp.priority = false) :
    (stepEvent st t (ClientEvent.addNotice inp)).1.rows =
      st.rows ++ [mkStoredRow st t inp] ∧
    (stepEvent st t (ClientEvent.addNotice inp)).2 =
      [ServerFact.noticeAdded (mkBroadcastRow st t inp)] :=
  ⟨rfl, rfl⟩

/-- Witness for C1 (amended) at the empty-title input. -/
theorem addNotice_unvalidated_witness :
    (emptyTitleInput.title = "" ∨ emptyTitleInput.content = "" ∨
      validCategory emptyTitleInput.category = false ∨
      validPriority emptyTitleInput.priority = false) ∧
    (stepEvent emptyStore sampleTime (ClientEvent.addNotice emptyTitleInput)).1.rows =
      emptyStore.rows ++ [mkStoredRow emptyStore sampleTime emptyTitleInput] :=
  ⟨Or.inl rfl, (addNotice_unvalidated emptyStore sampleTime emptyTitleInput (Or.inl rfl)).1⟩

/-- C2 (counterexample): the `createdAt` carried by the broadcast notice
(`new Date().toISOString()`) differs from the `createdAt` durably written
by the store (`DEFAULT CURRENT_TIMESTAMP`), even at the same instant. -/
theorem broadcast_createdAt_ne_stored :
    (mkBroadcastRow emptyStore sampleTime sampleInput).createdAt ≠
      (mkStoredRow emptyStore sampleTime sampleInput).createdAt := by
  decide

/-- C2 (amended): for every applied `ADD_NOTICE`, the broadcast
`NOTICE_ADDED` notice agrees with the durably written row on `id`,
`title`, `content`, `category`, `priority` and `author`; it agrees on
`expiresAt` whenever the submitted `expiresAt` is not the empty string
(which the INSERT coerces to NULL via `|| null`); its `createdAt` is the
hub's own ISO-8601 clock reading rather than the stored SQLite timestamp;
and the durable write precedes the broadcast in the handler's action
order. -/
theorem addNotice_write_then_broadcast (st : Store) (t : DateTime) (inp : NoticeInput)
    (h : inp.expiresAt ≠ some "") :
    (stepEvent st t (ClientEvent.addNotice inp)).1.rows =
      st.rows ++ [mkStoredRow st t inp] ∧
    (stepEvent st t (ClientEvent.addNotice inp)).2 =
      [ServerFact.noticeAdded (mkBroadcastRow st t inp)] ∧
    (mkBroadcastRow st t inp).id = (mkStoredRow st t inp).id ∧
    (mkBroadcastRow st t inp).title = (mkStoredRow st t inp).title ∧
    (mkBroadcastRow st t inp).content = (mkStoredRow st t inp).content ∧
    (mkBroadcastRow st t inp).category = (mkStoredRow st t inp).category ∧
    (mkBroadcastRow st t inp).priority = (mkStoredRow st t inp).priority ∧
    (mkBroadcastRow st t inp).author = (mkStoredRow st t inp).author ∧
    (mkBroadcastRow st t inp).expiresAt = (mkStoredRow st t inp).expiresAt ∧
    addNoticeActions st t inp =
      [HubAction.write (mkStoredRow st t inp),
        HubAction.send (ServerFact.noticeAdded (mkBroadcastRow st t inp))] := by
  refine ⟨rfl, rfl, rfl, rfl, rfl, rfl, rfl, rfl, ?_, rfl⟩
  rcases hx : inp.expiresAt with _ | s
  · simp [mkBroadcastRow, mkStoredRow, jsOrNull, hx]
  · have hs : s ≠ "" := fun h2 => h (by rw [hx, h2])
    simp [mkBroadcastRow, mkStoredRow, jsOrNull, hx, hs]

/-- Witness for C2 (amended) at the sample submission. -/
theorem addNotice_write_then_broadcast_witness :
    sampleInput.expiresAt ≠ some "" ∧
    (stepEvent emptyStore sampleTime (ClientEvent.addNotice sampleInput)).2 =
      [ServerFact.noticeAdded (mkBroadcastRow emptyStore sampleTime sampleInput)] ∧
    addNoticeActions emptyStore sampleTime sampleInput =
      [HubAction.write (mkStoredRow emptyStore sampleTime sampleInput),
        HubAction.send (ServerFact.noticeAdded (mkBroadcastRow emptyStore sampleTime sampleInput))] := by
  obtain ⟨h1, h2, h3, h4, h5, h6, h7, h8, h9, h10⟩ :=
    addNotice_write_then_broadcast emptyStore sampleTime sampleInput (by decide)
  exact ⟨by decide, h2, h10⟩

/-- C6: the projector fold replaces the local sequence on `INITIAL_STATE`
(preserving the given order), prepends on `NOTICE_ADDED`, removes the
entry with the matching id on `NOTICE_DELETED` when it is present, and
leaves the sequence unchanged when it is absent. -/
theorem projector_fold_spec (ns ms : List Notice) (n : Notice) (i : Nat) :
    onMessage ns (ProjectorMsg.initialState ms) = ms ∧
    onMessage ns (ProjectorMsg.noticeAdded n) = n :: ns ∧
    ((∀ m ∈ ns, m.id ≠ i) → onMessage ns (ProjectorMsg.noticeDeleted i) = ns) ∧
    (∀ l1 e l2, ns = l1 ++ e :: l2 → e.id = i →
      (∀ m ∈ l1, m.id ≠ i) → (∀ m ∈ l2, m.id ≠ i) →
      onMessage ns (ProjectorMsg.noticeDeleted i) = l1 ++ l2) := by
  refine ⟨rfl, rfl, ?_, ?_⟩
  · intro h
    simp only [onMessage]
    exact List.filter_eq_self.mpr (fun m hm => by simpa using h m hm)
  · rintro l1 e l2 rfl rfl h1 h2
    simp only [onMessage, List.filter_append, List.filter_cons]
    rw [if_neg (by simp), List.filter_eq_self.mpr (fun m hm => by simpa using h1 m hm),
      List.filter_eq_self.mpr (fun m hm => by simpa using h2 m hm)]

/-- Witness for C6 at a one-element local sequence. -/
theorem projector_fold_spec_witness :
    onMessage [mkStoredRow emptyStore sampleTime sampleInput]
        (ProjectorMsg.initialState [mkStoredRow emptyStore sampleTime sampleInput]) =
      [mkStoredRow emptyStore sampleTime sampleInput] ∧
    onMessage [mkStoredRow emptyStore sampleTime sampleInput]
        (ProjectorMsg.noticeDeleted 1) = [] := by
  have h := projector_fold_spec [mkStoredRow emptyStore sampleTime sampleInput]
    [mkStoredRow emptyStore sampleTime sampleInput]
    (mkStoredRow emptyStore sampleTime sampleInput) 1
  refine ⟨h.1, ?_⟩
  have h4 := h.2.2.2 [] (mkStoredRow emptyStore sampleTime sampleInput) [] rfl (by decide)
    (by intro m hm; cases hm) (by intro m hm; cases hm)
  simpa using h4

/-- C7: the `DELETE_NOTICE` branch broadcasts `NOTICE_DELETED{id}` for
every store state — whether or not a row with that id exists — and never
errors: the DELETE runs and the broadcast follows unconditionally. -/
theorem delete_always_broadcasts (st : Store) (t : DateTime) (i : Nat) :
    (stepEvent st t (ClientEvent.deleteNotice i)).2 = [ServerFact.noticeDeleted i] :=
  rfl

/-- C9: an inbound payload that fails `JSON.parse` (caught by the
try/catch) or whose `type` tag is unknown (if/else fall-through) leaves
the store and the connection set unchanged, emits no fact, and the handler
returns normally. -/
theorem malformed_message_ignored (hs : HubState) (t : DateTime) (ty : String) :
    hubHandleMessage hs t Inbound.malformed = (hs, []) ∧
    hubHandleMessage hs t (Inbound.unknownType ty) = (hs, []) :=
  ⟨rfl, rfl⟩

/-- C10: a server event whose `type` is none of the three known tags falls
through the projector's switch, leaving the local sequence unchanged. -/
theorem projector_unknown_event_noop (ns : List Notice) (m : ProjectorMsg)
    (h : knownProjectorMsg m = false) :
    onMessage ns m = ns := by
  cases m with
  | initialState ms => simp [knownProjectorMsg] at h
  | noticeAdded n => simp [knownProjectorMsg] at h
  | noticeDeleted i => simp [knownProjectorMsg] at h
  | other ty => rfl

/-- Witness for C10 at an unknown tag. -/
theorem projector_unknown_event_noop_witness :
    knownProjectorMsg (ProjectorMsg.other "PING") = false ∧
    onMessage [] (ProjectorMsg.other "PING") = [] :=
  ⟨rfl, projector_unknown_event_noop [] (ProjectorMsg.other "PING") rfl⟩

/-! ## Runs of the hub over command sequences -/

theorem runStore_nil (st : Store) : runStore st [] = st := rfl

theorem runStore_cons (st : Store) (t : DateTime) (e : ClientEvent)
    (rest : List (DateTime × ClientEvent)) :
    runStore st ((t, e) :: rest) = runStore (stepEvent st t e).1 rest := rfl

theorem runStore_append (st : Store) (cs1 cs2 : List (DateTime × ClientEvent)) :
    runStore st (cs1 ++ cs2) = runStore (runStore st cs1) cs2 := by
  induction cs1 generalizing st with
  | nil => rfl
  | cons p rest ih =>
    obtain ⟨t, e⟩ := p
    rw [List.cons_append, runStore_cons, runStore_cons, ih]

theorem stepEvent_seq_le (st : Store) (t : DateTime) (e : ClientEvent) :
    st.seq ≤ (stepEvent st t e).1.seq := by
  cases e with
  | addNotice inp => exact Nat.le_succ _
  | deleteNotice i => exact Nat.le_refl _

theorem runStore_seq_le (st : Store) (cs : List (DateTime × ClientEvent)) :
    st.seq ≤ (runStore st cs).seq := by
  induction cs generalizing st with
  | nil => exact Nat.le_refl _
  | cons p rest ih =>
    obtain ⟨t, e⟩ := p
    exact Nat.le_trans (stepEvent_seq_le st t e) (ih _)

/-- Characterization of the rows present after a run: a notice survives
exactly when it was in the starting store and never deleted, or some
`ADD_NOTICE` in the sequence inserted it and no later `DELETE_NOTICE`
targeted its id. -/
theorem mem_runStore_rows (cs : List (DateTime × ClientEvent)) (st : Store) (n : Notice) :
    n ∈ (runStore st cs).rows ↔
      (n ∈ st.rows ∧ ∀ p ∈ cs, p.2 ≠ ClientEvent.deleteNotice n.id) ∨
      (∃ cs1 t inp cs2, cs = cs1 ++ (t, ClientEvent.addNotice inp) :: cs2 ∧
        n = mkStoredRow (runStore st cs1) t inp ∧
        ∀ p ∈ cs2, p.2 ≠ ClientEvent.deleteNotice n.id) := by
  induction cs generalizing st with
  | nil =>
    constructor
    · intro h
      exact Or.inl ⟨h, by simp⟩
    · rintro (⟨h, -⟩ | ⟨cs1, t, inp, cs2, habs, -, -⟩)
      · exact h
      · rcases cs1 with _ | ⟨q, cs1⟩ <;> simp at habs
  | cons p rest ih =>
    obtain ⟨t0, e⟩ := p
    cases e with
    | addNotice inp =>
      rw [runStore_cons, ih]
      constructor
      · rintro (⟨hmem, hnd⟩ | ⟨cs1, t, inp', cs2, hsplit, hn, hnd⟩)
        · have hm : n ∈ st.rows ++ [mkStoredRow st t0 inp] := hmem
          rcases List.mem_append.mp hm with h | h
          · refine Or.inl ⟨h, ?_⟩
            intro q hq
            rcases List.mem_cons.mp hq with rfl | hq
            · simp
            · exact hnd q hq
          · refine Or.inr ⟨[], t0, inp, rest, by simp, ?_, hnd⟩
            simpa using List.mem_singleton.mp h
        · exact Or.inr ⟨(t0, ClientEvent.addNotice inp) :: cs1, t, inp', cs2,
            by rw [List.cons_append, hsplit], hn, hnd⟩
      · rintro (⟨hmem, hnd⟩ | ⟨cs1, t, inp', cs2, hsplit, hn, hnd⟩)
        · refine Or.inl ⟨List.mem_append.mpr (Or.inl hmem),
            fun q hq => hnd q (List.mem_cons_of_mem _ hq)⟩
        · rcases cs1 with _ | ⟨q, cs1⟩
          · simp only [List.nil_append] at hsplit
            injection hsplit with hhead hrest
            injection hhead with ht he
            injection he with hinp
            subst ht; subst hinp; subst hrest
            refine Or.inl ⟨?_, hnd⟩
            rw [hn]
            exact List.mem_append_right _ (List.mem_singleton.mpr rfl)
          · injection hsplit with hq hrest
            subst hq
            exact Or.inr ⟨cs1, t, inp', cs2, hrest, hn, hnd⟩
    | deleteNotice j =>
      rw [runStore_cons, ih]
      constructor
      · rintro (⟨hmem, hnd⟩ | ⟨cs1, t, inp', cs2, hsplit, hn, hnd⟩)
        · have hm := List.mem_filter.mp hmem
          refine Or.inl ⟨hm.1, ?_⟩
          intro q hq
          rcases List.mem_cons.mp hq with rfl | hq
          · have hne : n.id ≠ j := by simpa using hm.2
            simp only [ne_eq, ClientEvent.deleteNotice.injEq]
            exact fun h => hne h.symm
          · exact hnd q hq
        · exact Or.inr ⟨(t0, ClientEvent.deleteNotice j) :: cs1, t, inp', cs2,
            by rw [List.cons_append, hsplit], hn, hnd⟩
      · rintro (⟨hmem, hnd⟩ | ⟨cs1, t, inp', cs2, hsplit, hn, hnd⟩)
        · have hj : (ClientEvent.deleteNotice j : ClientEvent) ≠
              ClientEvent.deleteNotice n.id :=
            hnd (t0, ClientEvent.deleteNotice j) (List.mem_cons_self _ _)
          refine Or.inl ⟨?_, fun q hq => hnd q (List.mem_cons_of_mem _ hq)⟩
          refine List.mem_filter.mpr ⟨hmem, ?_⟩
          simp only [bne_iff_ne, ne_eq]
          intro h
          exact hj (by rw [h])
        · rcases cs1 with _ | ⟨q, cs1⟩
          · simp at hsplit
          · injection hsplit with hq hrest
            subst hq
            exact Or.inr ⟨cs1, t, inp', cs2, hrest, hn, hnd⟩

/-! ## Store well-formedness: id bound and uniqueness -/

/-- Invariant maintained by the store: every row's id is bounded by the
AUTOINCREMENT sequence, and ids are pairwise distinct. -/
def storeWF (st : Store) : Prop :=
  (∀ n ∈ st.rows, n.id ≤ st.seq) ∧ (st.rows.map (fun n => n.id)).Nodup

theorem storeWF_empty : storeWF emptyStore :=
  ⟨fun n hn => absurd hn (List.not_mem_nil n), List.nodup_nil⟩

theorem storeWF_step (st : Store) (t : DateTime) (e : ClientEvent) (h : storeWF st) :
    storeWF (stepEvent st t e).1 := by
  obtain ⟨hb, hnd⟩ := h
  cases e with
  | addNotice inp =>
    constructor
    · intro n hn
      rcases List.mem_append.mp hn with h1 | h1
      · exact Nat.le_trans (hb n h1) (Nat.le_succ _)
      · rw [List.mem_singleton.mp h1]
        exact Nat.le_refl _
    · show ((st.rows ++ [mkStoredRow st t inp]).map (fun n => n.id)).Nodup
      rw [List.map_append]
      refine List.Nodup.append hnd (List.nodup_singleton _) ?_
      intro x hx hy
      rcases List.mem_map.mp hx with ⟨m, hm, rfl⟩
      have hle := hb m hm
      have : m.id = st.seq + 1 := by simpa [mkStoredRow] using hy
      omega
  | deleteNotice j =>
    constructor
    · intro n hn
      exact hb n (List.mem_filter.mp hn).1
    · exact List.Nodup.sublist (List.Sublist.map _ (List.filter_sublist _)) hnd

theorem storeWF_runStore (st : Store) (cs : List (DateTime × ClientEvent))
    (h : storeWF st) : storeWF (runStore st cs) := by
  induction cs generalizing st with
  | nil => exact h
  | cons p rest ih =>
    obtain ⟨t, e⟩ := p
    exact ih _ (storeWF_step st t e h)

/-- Deleting by id from rows with pairwise-distinct ids removes exactly
one row when a row with that id is present. -/
theorem filter_ne_length (l : List Notice) (i : Nat)
    (hnd : (l.map (fun n => n.id)).Nodup) (h : ∃ n ∈ l, n.id = i) :
    (l.filter (fun n => n.id != i)).length + 1 = l.length := by
  induction l with
  | nil => simp at h
  | cons a l ih =>
    simp only [List.map_cons, List.nodup_cons] at hnd
    obtain ⟨ha, hnd⟩ := hnd
    rcases h with ⟨n, hn, hni⟩
    rcases List.mem_cons.mp hn with rfl | hn
    · rw [List.filter_cons_of_neg (by simp [hni])]
      rw [List.filter_eq_self.mpr ?_]
      · simp
      · intro m hm
        simp only [bne_iff_ne, ne_eq]
        intro he
        exact ha (List.mem_map.mpr ⟨m, hm, by rw [he, hni]⟩)
    · have hai : a.id ≠ i := fun he =>
        ha (List.mem_map.mpr ⟨n, hn, by rw [hni, he]⟩)
      rw [List.filter_cons_of_pos (by simp [hai])]
      have := ih hnd ⟨n, hn, hni⟩
      simp only [List.length_cons]
      omega

/-- Membership in the snapshot equals membership in the table (the
`ORDER BY` only permutes). -/
theorem mem_listAll (st : Store) (n : Notice) : n ∈ listAll st ↔ n ∈ st.rows :=
  (List.perm_insertionSort createdAtDesc st.rows).mem_iff

/-- C3: after any sequence of `ADD_NOTICE`/`DELETE_NOTICE` commands, a
newly connecting client is sent a single `INITIAL_STATE` fact carrying
exactly `listAll()` of the store at connection time, and that snapshot
contains precisely the notices inserted by some `ADD_NOTICE` of the
sequence whose id no later `DELETE_NOTICE` targeted — nothing else. -/
theorem initial_state_is_listAll (cs : List (DateTime × ClientEvent)) :
    connectFact (runStore emptyStore cs) =
      ServerFact.initialState (listAll (runStore emptyStore cs)) ∧
    ∀ n : Notice,
      n ∈ listAll (runStore emptyStore cs) ↔
        ∃ cs1 t inp cs2, cs = cs1 ++ (t, ClientEvent.addNotice inp) :: cs2 ∧
          n = mkStoredRow (runStore emptyStore cs1) t inp ∧
          ∀ p ∈ cs2, p.2 ≠ ClientEvent.deleteNotice n.id := by
  refine ⟨rfl, fun n => ?_⟩
  rw [mem_listAll, mem_runStore_rows]
  simp [emptyStore]

/-- C4: across any run, a later `ADD_NOTICE` is assigned a strictly
greater id than an earlier one, whatever commands (including deletions of
the earlier notice) lie between them — so ids are pairwise distinct and
never reused. -/
theorem assigned_ids_strictly_increase (st0 : Store)
    (cs1 cs2 : List (DateTime × ClientEvent)) (t1 t2 : DateTime)
    (inp1 inp2 : NoticeInput) :
    (mkStoredRow (runStore st0 cs1) t1 inp1).id <
      (mkStoredRow (runStore st0 (cs1 ++ (t1, ClientEvent.addNotice inp1) :: cs2))
        t2 inp2).id := by
  show (runStore st0 cs1).seq + 1 <
    (runStore st0 (cs1 ++ (t1, ClientEvent.addNotice inp1) :: cs2)).seq + 1
  rw [runStore_append, runStore_cons]
  have h2 := runStore_seq_le
    (stepEvent (runStore st0 cs1) t1 (ClientEvent.addNotice inp1)).1 cs2
  have h1 : (stepEvent (runStore st0 cs1) t1 (ClientEvent.addNotice inp1)).1.seq =
      (runStore st0 cs1).seq + 1 := rfl
  omega

/-- C5 (counterexample): two notices inserted in the same second share a
stored `createdAt`; `listAll` returns them in insertion (id-ascending)
order, not id-descending — the SQL requests no id tie-break. -/
theorem listAll_tie_order_ascending :
    (listAll tieStore).map (fun n => n.id) = [1, 2] ∧
    (listAll tieStore).map (fun n => n.createdAt) =
      ["2024-01-15 10:30:00", "2024-01-15 10:30:00"] := by
  constructor <;> decide

/-- C5 (amended): `listAll` returns every persisted notice (a permutation
of the table) sorted by `createdAt` descending; the query imposes no tie
order, and in the modelled table-scan order notices sharing a `createdAt`
appear in insertion (id-ascending) order rather than id-descending. -/
theorem listAll_sorted_createdAt_desc (st : Store) :
    List.Perm (listAll st) st.rows ∧ List.Sorted createdAtDesc (listAll st) :=
  ⟨List.perm_insertionSort _ _, List.sorted_insertionSort _ _⟩

/-- C8: for a store reached by any command run in which a notice with the
given id exists, deleting that id twice removes exactly one row (the
second delete leaves the store unchanged) and each delete broadcasts its
`NOTICE_DELETED` fact — two facts in total. -/
theorem delete_twice_idempotent (cs : List (DateTime × ClientEvent))
    (t1 t2 : DateTime) (i : Nat)
    (h : ∃ n ∈ (runStore emptyStore cs).rows, n.id = i) :
    (stepEvent (runStore emptyStore cs) t1 (ClientEvent.deleteNotice i)).1.rows.length + 1 =
      (runStore emptyStore cs).rows.length ∧
    (stepEvent (stepEvent (runStore emptyStore cs) t1 (ClientEvent.deleteNotice i)).1 t2
        (ClientEvent.deleteNotice i)).1 =
      (stepEvent (runStore emptyStore cs) t1 (ClientEvent.deleteNotice i)).1 ∧
    (stepEvent (runStore emptyStore cs) t1 (ClientEvent.deleteNotice i)).2 =
      [ServerFact.noticeDeleted i] ∧
    (stepEvent (stepEvent (runStore emptyStore cs) t1 (ClientEvent.deleteNotice i)).1 t2
        (ClientEvent.deleteNotice i)).2 = [ServerFact.noticeDeleted i] := by
  obtain ⟨-, hnd⟩ := storeWF_runStore emptyStore cs storeWF_empty
  refine ⟨filter_ne_length _ i hnd h, ?_, rfl, rfl⟩
  show ({ (stepEvent (runStore emptyStore cs) t1 (ClientEvent.deleteNotice i)).1 with
      rows := (runStore emptyStore cs).rows.filter (fun n => n.id != i) |>.filter
        (fun n => n.id != i) } : Store) = _
  rw [List.filter_eq_self.mpr (fun m hm => (List.mem_filter.mp hm).2)]
  rfl

/-- Witness for C8: one add, then the id-1 notice is present and the first
delete removes exactly one row. -/
theorem delete_twice_idempotent_witness :
    (∃ n ∈ (runStore emptyStore [(sampleTime, ClientEvent.addNotice sampleInput)]).rows,
      n.id = 1) ∧
    (stepEvent (runStore emptyStore [(sampleTime, ClientEvent.addNotice sampleInput)])
        sampleTime (ClientEvent.deleteNotice 1)).1.rows.length + 1 =
      (runStore emptyStore [(sampleTime, ClientEvent.addNotice sampleInput)]).rows.length := by
  refine ⟨by decide, ?_⟩
  exact (delete_twice_idempotent [(sampleTime, ClientEvent.addNotice sampleInput)]
    sampleTime sampleTime 1 (by decide)).1
